import Mathlib

/-!
Verification of the safe-withdrawal-rate backtester (`investment.py`).

Embedding conventions:
* Python `float` monetary values and prices are modelled as `ℚ`.
* Python `int` share counts and years are modelled as `ℤ`.
* The yearly-price and inflation dictionaries are modelled as maps
  `ℤ → Option _`; a `KeyError` on a missing year is `none`.
* Methods that can raise (`KeyError` from a dict lookup, `AssertionError`
  from the defensive check in `buy_stock`) return `Option _`; `none` is a
  raised exception, `some _` an ordinary return value.
* Python's in-place mutation of `Market` and `InvestmentAccount` objects is
  modelled by explicit state passing; the account's `_market` reference is
  modelled by passing the current `Market` to every price-dependent method.
-/

/-- One entry of `snp_yearly`: the per-year record built from the S&P csv,
class `SnpYear(year, open, close)` in the source (`open`/`close` renamed to
`openPrice`/`closePrice` because `open` is a Lean keyword). -/
structure SnpYear where
  year : ℤ
  openPrice : ℚ
  closePrice : ℚ
  deriving Repr, DecidableEq

/-- Class `Market`: `_cur_year`, `_at_start_of_year`, and the two data
dictionaries passed to its constructor. -/
structure Market where
  cur_year : ℤ
  at_start_of_year : Bool
  snp_yearly : ℤ → Option SnpYear
  year_to_inflation : ℤ → Option ℚ

/-- `Market.move_to_next_year`: increment `_cur_year`, reset
`_at_start_of_year` to `True`. -/
def Market.move_to_next_year (m : Market) : Market :=
  { m with cur_year := m.cur_year + 1, at_start_of_year := true }

/-- `Market.move_to_end_of_current_year`: set `_at_start_of_year = False`. -/
def Market.move_to_end_of_current_year (m : Market) : Market :=
  { m with at_start_of_year := false }

/-- `Market.current_inflation`: `self._year_to_inflation[self._cur_year]`
(a `KeyError` on a missing year is `none`). -/
def Market.current_inflation (m : Market) : Option ℚ :=
  m.year_to_inflation m.cur_year

/-- `Market.current_year_growth`: `(close - open) / open` for the current
year. -/
def Market.current_year_growth (m : Market) : Option ℚ :=
  (m.snp_yearly m.cur_year).map fun s => (s.closePrice - s.openPrice) / s.openPrice

/-- `Market.current_price`: the current year's open price at the start of
the year, its close price otherwise. -/
def Market.current_price (m : Market) : Option ℚ :=
  (m.snp_yearly m.cur_year).map fun s =>
    if m.at_start_of_year then s.openPrice else s.closePrice

/-- Class `InvestmentAccount`: `_cash` and `_num_shares` (the `_market`
reference is passed explicitly to each price-dependent method). -/
structure InvestmentAccount where
  cash : ℚ
  num_shares : ℤ
  deriving Repr, DecidableEq

/-- `InvestmentAccount.__init__(starting_cash, market)`: starts with the
given cash and zero shares. -/
def InvestmentAccount.mk0 (starting_cash : ℚ) : InvestmentAccount :=
  { cash := starting_cash, num_shares := 0 }

/-- Property `InvestmentAccount.cash_available`. -/
def InvestmentAccount.cash_available (a : InvestmentAccount) : ℚ :=
  a.cash

/-- Property `InvestmentAccount.net_worth`:
`self._cash + self._num_shares * self._market.current_price`. -/
def InvestmentAccount.net_worth (a : InvestmentAccount) (m : Market) : Option ℚ :=
  (m.current_price).map fun p => a.cash + a.num_shares * p

/-- `InvestmentAccount.buy_stock(num_shares)`: the debug log line reads
`current_price` (so a missing year raises, `none`), then
`assert self._cash >= self._market.current_price * num_shares` (a failed
assertion raises, `none`), then cash decreases and shares increase. -/
def InvestmentAccount.buy_stock (a : InvestmentAccount) (m : Market)
    (num_shares : ℤ) : Option InvestmentAccount :=
  match m.current_price with
  | none => none
  | some p =>
    if a.cash ≥ p * num_shares then
      some { cash := a.cash - p * num_shares, num_shares := a.num_shares + num_shares }
    else
      none

/-- `InvestmentAccount.sell_stock(num_shares) -> bool`: the debug log line
reads `current_price` and `net_worth` first (so a missing year raises,
`none`); then returns `False` without mutating when
`self._num_shares < num_shares`, else adds `current_price * num_shares` to
cash, subtracts `num_shares` from the share count and returns `True`. -/
def InvestmentAccount.sell_stock (a : InvestmentAccount) (m : Market)
    (num_shares : ℤ) : Option (Bool × InvestmentAccount) :=
  match m.current_price with
  | none => none
  | some p =>
    if a.num_shares < num_shares then
      some (false, a)
    else
      some (true, { cash := a.cash + p * num_shares, num_shares := a.num_shares - num_shares })

/-- `InvestmentAccount.spend_cash(amount) -> bool`: returns `False` without
mutating when `self._cash < amount`, else decrements cash. No market access,
so it cannot raise. -/
def InvestmentAccount.spend_cash (a : InvestmentAccount) (amount : ℚ) :
    Bool × InvestmentAccount :=
  if a.cash < amount then
    (false, a)
  else
    (true, { a with cash := a.cash - amount })

/-- The `termcolor.colored(text, color)` library helper used for the two
failure reasons: it wraps the text in the ANSI escape for the colour
(`31` = red, `33` = yellow) and the reset escape. -/
def colored (text color : String) : String :=
  let code : Nat := if color = "red" then 31 else if color = "yellow" then 33 else 0
  "\x1b[" ++ toString code ++ "m" ++ text ++ "\x1b[0m"

/-- The body of the `for year in range(start_year, start_year + num_years)`
loop of `BuyAndHoldStrategy.go`, recursing on the number of remaining years.
Per iteration, in source order: read `net_worth` (first market access of the
iteration, `none` if the year's price is missing), compute the
constant-percentage withdrawal, pick this year's withdrawal by mode, compute
`num_shares_to_sell = math.ceil((this_year_withdrawal - cash_available) /
current_price)`, attempt the sale (break with the red `ran short` reason on
failure), attempt `spend_cash` (break with the yellow reason on failure),
move the clock to year-end, read the year's inflation (used by the debug row
and the fixed-withdrawal update; `none` if missing), scale the fixed
withdrawal by `1 + inflation`, move the clock to the next year, recurse.
Falling off the end of the loop returns the initial `ret = (True, '')`
together with the final account and market. -/
def BuyAndHoldStrategy.goLoop (pct : ℚ) (fixedMode : Bool) (a : InvestmentAccount)
    (m : Market) (year : ℤ) (remaining : ℕ) (fixed_real_withdrawal : ℚ) :
    Option ((Bool × String) × InvestmentAccount × Market) :=
  match remaining with
  | 0 => some ((true, ""), a, m)
  | Nat.succ r =>
    match a.net_worth m with
    | none => none
    | some nw =>
      let constant_percent_withdrawal := nw * pct
      let this_year_withdrawal :=
        if fixedMode then fixed_real_withdrawal else constant_percent_withdrawal
      match m.current_price with
      | none => none
      | some price =>
        let num_shares_to_sell := Int.ceil ((this_year_withdrawal - a.cash_available) / price)
        match a.sell_stock m num_shares_to_sell with
        | none => none
        | some (sOk, a1) =>
          if sOk = false then
            some ((false, colored ("ran short in " ++ toString year) "red"), a1, m)
          else
            match a1.spend_cash this_year_withdrawal with
            | (pOk, a2) =>
              if pOk = false then
                some ((false, colored "failed to spend cash?" "yellow"), a2, m)
              else
                let m1 := m.move_to_end_of_current_year
                match m1.current_inflation with
                | none => none
                | some infl =>
                  BuyAndHoldStrategy.goLoop pct fixedMode a2 m1.move_to_next_year
                    (year + 1) r (fixed_real_withdrawal * (1 + infl))

/-- `BuyAndHoldStrategy.go(account, market, start_year, num_years)`.
`pct` is the global `SPENDING_PERCENTAGE`, `fixedMode` the global
`SPEND_FIXED_REAL_AMOUNT`. First `fixed_real_withdrawal = cash_available *
SPENDING_PERCENTAGE` is computed, then everything is invested right away via
`buy_stock(math.floor(cash_available / current_price))`, then the per-year
loop runs. -/
def BuyAndHoldStrategy.go (pct : ℚ) (fixedMode : Bool) (a : InvestmentAccount)
    (m : Market) (start_year : ℤ) (num_years : ℕ) :
    Option ((Bool × String) × InvestmentAccount × Market) :=
  let fixed_real_withdrawal := a.cash_available * pct
  match m.current_price with
  | none => none
  | some price =>
    match a.buy_stock m (Int.floor (a.cash_available / price)) with
    | none => none
    | some a1 =>
      BuyAndHoldStrategy.goLoop pct fixedMode a1 m start_year num_years fixed_real_withdrawal

/-- The accumulator loop of `get_inflation_percentage`:
`percent = 1; for year in range(start_year, start_year + num_years):
percent *= (1 + year_to_inflation[year])`, with a missing year raising
(`none`). -/
def inflation_loop (yti : ℤ → Option ℚ) (year : ℤ) (remaining : ℕ) (percent : ℚ) :
    Option ℚ :=
  match remaining with
  | 0 => some percent
  | Nat.succ r =>
    match yti year with
    | none => none
    | some rate => inflation_loop yti (year + 1) r (percent * (1 + rate))

/-- `get_inflation_percentage(start_year, num_years)`; the module-level
`year_to_inflation` dictionary is passed as the `yti` parameter. -/
def get_inflation_percentage (yti : ℤ → Option ℚ) (start_year : ℤ) (num_years : ℕ) :
    Option ℚ :=
  inflation_loop yti start_year num_years 1

/-- `nominal_to_real(start, start_year, num_years)
= start * (1. / get_inflation_percentage(start_year, num_years))`. -/
def nominal_to_real (yti : ℤ → Option ℚ) (start : ℚ) (start_year : ℤ) (num_years : ℕ) :
    Option ℚ :=
  (get_inflation_percentage yti start_year num_years).map fun pct => start * (1 / pct)

/-- Written from the spec's words, for comparison with
`get_inflation_percentage`: the compounded inflation factor
`Π_(y = startYear)^(startYear+numYears-1) (1 + rate(y))` over a total rate
function. -/
def compoundedFactor (rate : ℤ → ℚ) (startYear : ℤ) (numYears : ℕ) : ℚ :=
  Finset.prod (Finset.range numYears) fun k => 1 + rate (startYear + k)

/-- The three `InvestmentAccount` operations with the argument shapes the
system itself uses (`BuyAndHoldStrategy.go`): `buy_stock` with
`floor(cash_available / current_price)`, `sell_stock` with
`ceil((withdrawal - cash_available) / current_price)`, and `spend_cash` with
a withdrawal amount. -/
inductive SysOp where
  | buyAll : SysOp
  | sellForWithdrawal (w : ℚ) : SysOp
  | spend (amount : ℚ) : SysOp

/-- Execute one system-shaped operation against the market state current at
that moment, keeping only the resulting account (`sell_stock` and
`spend_cash` results are booleans the caller inspects; a returned `False`
leaves the account as it was). -/
def sysStep (m : Market) (a : InvestmentAccount) : SysOp → Option InvestmentAccount
  | SysOp.buyAll =>
    match m.current_price with
    | none => none
    | some p => a.buy_stock m (Int.floor (a.cash_available / p))
  | SysOp.sellForWithdrawal w =>
    match m.current_price with
    | none => none
    | some p => (a.sell_stock m (Int.ceil ((w - a.cash_available) / p))).map Prod.snd
  | SysOp.spend amount => some (a.spend_cash amount).snd

/-- Run a sequence of system-shaped operations, each against the market
state current when it executes. -/
def runSysOps (a : InvestmentAccount) : List (Market × SysOp) → Option InvestmentAccount
  | [] => some a
  | (m, op) :: rest =>
    match sysStep m a op with
    | none => none
    | some a1 => runSysOps a1 rest

/-- The account invariant of the spec: `cash ≥ 0` and `shares_owned ≥ 0`. -/
def accInv (a : InvestmentAccount) : Prop :=
  0 ≤ a.cash ∧ 0 ≤ a.num_shares

/-- The market's current price exists and is positive (the spec's invariant
that open/close prices are positive for every loaded year). -/
def pricePos (m : Market) : Prop :=
  ∃ p : ℚ, m.current_price = some p ∧ 0 < p

/-- The amount carried by a system-shaped operation is non-negative
(withdrawal targets and spends are non-negative per the spec). -/
def SysOp.amountNonneg : SysOp → Prop
  | SysOp.buyAll => True
  | SysOp.sellForWithdrawal w => 0 ≤ w
  | SysOp.spend amount => 0 ≤ amount

/-- A one-year test price table: 1970 opens at 100 and closes at 110
(the shape of the spec's worked scenario). -/
def snpT : ℤ → Option SnpYear :=
  fun y => if y = 1970 then some (SnpYear.mk 1970 100 110) else none

/-- A one-year test inflation table: 5% in 1970. -/
def inflT : ℤ → Option ℚ :=
  fun y => if y = 1970 then some (1 / 20) else none

theorem ceil_via_floor (x : ℚ) : Int.ceil x = -Int.floor (-x) := by
  conv_lhs => rw [← neg_neg x]
  rw [Int.ceil_neg]

/-- C7: for every year Y in the loaded price data, `Market.current_price`
is year Y's open price at phase=start and its close price at phase=end;
`move_to_end_of_current_year` only clears the phase flag (so invoking it any
number of times gives the same market, and the price after it is the close
price); `move_to_next_year` increments the year and resets the phase to
start. -/
theorem claim_C7_theorem (snp : ℤ → Option SnpYear) (yti : ℤ → Option ℚ)
    (Y : ℤ) (sy : SnpYear) (b : Bool) (h : snp Y = some sy) :
    (Market.mk Y b snp yti).current_price
        = some (if b then sy.openPrice else sy.closePrice) ∧
    (Market.mk Y b snp yti).move_to_end_of_current_year = Market.mk Y false snp yti ∧
    ((Market.mk Y b snp yti).move_to_end_of_current_year).current_price
        = some sy.closePrice ∧
    (Market.mk Y b snp yti).move_to_next_year = Market.mk (Y + 1) true snp yti := by
  refine ⟨?_, rfl, ?_, rfl⟩
  · simp [Market.current_price, h]
  · simp [Market.current_price, Market.move_to_end_of_current_year, h]

theorem claim_C7_witness :
    snpT 1970 = some (SnpYear.mk 1970 100 110) ∧
    ((Market.mk 1970 true snpT inflT).current_price = some 100 ∧
     (Market.mk 1970 true snpT inflT).move_to_end_of_current_year
        = Market.mk 1970 false snpT inflT ∧
     ((Market.mk 1970 true snpT inflT).move_to_end_of_current_year).current_price
        = some 110 ∧
     (Market.mk 1970 true snpT inflT).move_to_next_year
        = Market.mk 1971 true snpT inflT) := by
  have h : snpT 1970 = some (SnpYear.mk 1970 100 110) := by simp [snpT]
  refine ⟨h, ?_⟩
  have hmain := claim_C7_theorem snpT inflT 1970 (SnpYear.mk 1970 100 110) true h
  simpa using hmain

/-- C4: `sell_stock(n)` returns `False` and mutates nothing when
`shares_owned < n`; otherwise it returns `True`, adds exactly
`n × current_price` to cash and subtracts `n` from `shares_owned`. -/
theorem claim_C4_theorem (a : InvestmentAccount) (m : Market) (p : ℚ) (n : ℤ)
    (h : m.current_price = some p) :
    (a.num_shares < n → a.sell_stock m n = some (false, a)) ∧
    (n ≤ a.num_shares →
      a.sell_stock m n
        = some (true, InvestmentAccount.mk (a.cash + p * n) (a.num_shares - n))) := by
  constructor
  · intro hlt
    simp [InvestmentAccount.sell_stock, h, hlt]
  · intro hle
    simp [InvestmentAccount.sell_stock, h, not_lt.mpr hle]

theorem claim_C4_witness :
    (Market.mk 1970 true snpT inflT).current_price = some 100 ∧
    ((InvestmentAccount.mk 50 3).num_shares < 5 →
      (InvestmentAccount.mk 50 3).sell_stock (Market.mk 1970 true snpT inflT) 5
        = some (false, InvestmentAccount.mk 50 3)) ∧
    ((5 : ℤ) ≤ (InvestmentAccount.mk 50 10).num_shares →
      (InvestmentAccount.mk 50 10).sell_stock (Market.mk 1970 true snpT inflT) 5
        = some (true, InvestmentAccount.mk (50 + 100 * (5 : ℤ)) (10 - 5))) := by
  have h : (Market.mk 1970 true snpT inflT).current_price = some 100 := by
    simp [Market.current_price, snpT]
  exact ⟨h, (claim_C4_theorem (InvestmentAccount.mk 50 3)
              (Market.mk 1970 true snpT inflT) 100 5 h).1,
            (claim_C4_theorem (InvestmentAccount.mk 50 10)
              (Market.mk 1970 true snpT inflT) 100 5 h).2⟩

/-- C10: with the market clock held fixed, a successful `buy_stock(n)` or
`sell_stock(n)` with non-negative `n` leaves
`net_worth = cash + shares_owned × current_price` exactly unchanged. -/
theorem claim_C10_theorem (a : InvestmentAccount) (m : Market) (p : ℚ) (n : ℤ)
    (h : m.current_price = some p) (hn : 0 ≤ n) :
    (∀ a1, a.buy_stock m n = some a1 → a1.net_worth m = a.net_worth m) ∧
    (∀ a2, a.sell_stock m n = some (true, a2) → a2.net_worth m = a.net_worth m) := by
  constructor
  · intro a1 hbuy
    simp only [InvestmentAccount.buy_stock, h] at hbuy
    by_cases haff : a.cash ≥ p * n
    · simp only [if_pos haff, Option.some.injEq] at hbuy
      subst hbuy
      simp only [InvestmentAccount.net_worth, h, Option.map_some', Option.some.injEq]
      push_cast
      ring
    · simp [if_neg haff] at hbuy
  · intro a2 hsell
    simp only [InvestmentAccount.sell_stock, h] at hsell
    by_cases hlt : a.num_shares < n
    · simp [if_pos hlt] at hsell
    · simp only [if_neg hlt, Option.some.injEq, Prod.mk.injEq, true_and] at hsell
      subst hsell
      simp only [InvestmentAccount.net_worth, h, Option.map_some', Option.some.injEq]
      push_cast
      ring

theorem claim_C10_witness :
    (Market.mk 1970 true snpT inflT).current_price = some 100 ∧ (0 : ℤ) ≤ 2 ∧
    ((∀ a1, (InvestmentAccount.mk 500 7).buy_stock (Market.mk 1970 true snpT inflT) 2
        = some a1 → a1.net_worth (Market.mk 1970 true snpT inflT)
            = (InvestmentAccount.mk 500 7).net_worth (Market.mk 1970 true snpT inflT)) ∧
     (∀ a2, (InvestmentAccount.mk 500 7).sell_stock (Market.mk 1970 true snpT inflT) 2
        = some (true, a2) → a2.net_worth (Market.mk 1970 true snpT inflT)
            = (InvestmentAccount.mk 500 7).net_worth (Market.mk 1970 true snpT inflT))) := by
  have h : (Market.mk 1970 true snpT inflT).current_price = some 100 := by
    simp [Market.current_price, snpT]
  exact ⟨h, by norm_num,
    claim_C10_theorem (InvestmentAccount.mk 500 7) (Market.mk 1970 true snpT inflT)
      100 2 h (by norm_num)⟩

/-- C9: the initialization buy `buy_stock(floor(cash / current_price))`
never violates `buy_stock`'s affordability assertion: for non-negative cash
and positive price, `price × floor(cash / price) ≤ cash`, so the call
returns normally and the fractional-share remainder stays as cash. -/
theorem claim_C9_theorem (a : InvestmentAccount) (m : Market) (p : ℚ)
    (h : m.current_price = some p) (hc : 0 ≤ a.cash) (hp : 0 < p) :
    p * ((Int.floor (a.cash_available / p) : ℤ) : ℚ) ≤ a.cash ∧
    a.buy_stock m (Int.floor (a.cash_available / p))
      = some (InvestmentAccount.mk
          (a.cash - p * ((Int.floor (a.cash_available / p) : ℤ) : ℚ))
          (a.num_shares + Int.floor (a.cash_available / p))) := by
  have hle : p * ((Int.floor (a.cash_available / p) : ℤ) : ℚ) ≤ a.cash := by
    have hfl : ((Int.floor (a.cash_available / p) : ℤ) : ℚ) ≤ a.cash_available / p :=
      Int.floor_le _
    calc p * ((Int.floor (a.cash_available / p) : ℤ) : ℚ)
        ≤ p * (a.cash_available / p) := by
          exact mul_le_mul_of_nonneg_left hfl (le_of_lt hp)
      _ = a.cash := by
          rw [InvestmentAccount.cash_available]
          field_simp
  refine ⟨hle, ?_⟩
  simp [InvestmentAccount.buy_stock, h, hle]

theorem claim_C9_witness :
    (Market.mk 1970 true snpT inflT).current_price = some 100 ∧
    (0 : ℚ) ≤ (InvestmentAccount.mk 250 0).cash ∧ (0 : ℚ) < 100 ∧
    (100 * ((Int.floor ((InvestmentAccount.mk 250 0).cash_available / 100) : ℤ) : ℚ)
        ≤ (InvestmentAccount.mk 250 0).cash ∧
     (InvestmentAccount.mk 250 0).buy_stock (Market.mk 1970 true snpT inflT)
        (Int.floor ((InvestmentAccount.mk 250 0).cash_available / 100))
       = some (InvestmentAccount.mk
           ((InvestmentAccount.mk 250 0).cash
              - 100 * ((Int.floor ((InvestmentAccount.mk 250 0).cash_available / 100) : ℤ) : ℚ))
           ((InvestmentAccount.mk 250 0).num_shares
              + Int.floor ((InvestmentAccount.mk 250 0).cash_available / 100)))) := by
  have h : (Market.mk 1970 true snpT inflT).current_price = some 100 := by
    simp [Market.current_price, snpT]
  exact ⟨h, by norm_num, by norm_num,
    claim_C9_theorem (InvestmentAccount.mk 250 0) (Market.mk 1970 true snpT inflT)
      100 h (by norm_num) (by norm_num)⟩

/-- C3: when the sale of `ceil((withdrawal - cash_available) /
current_price)` shares succeeds and the current price is positive, the
immediately following `spend_cash(withdrawal)` always succeeds: the
depleted-with-reason-`failed to spend cash?` branch is unreachable under
correct pricing. -/
theorem claim_C3_theorem (a : InvestmentAccount) (m : Market) (p w : ℚ)
    (a1 : InvestmentAccount) (h : m.current_price = some p) (hp : 0 < p)
    (hsell : a.sell_stock m (Int.ceil ((w - a.cash_available) / p)) = some (true, a1)) :
    (a1.spend_cash w).fst = true := by
  simp only [InvestmentAccount.sell_stock, h] at hsell
  by_cases hlt : a.num_shares < Int.ceil ((w - a.cash_available) / p)
  · simp [if_pos hlt] at hsell
  · simp only [if_neg hlt, Option.some.injEq, Prod.mk.injEq, true_and] at hsell
    have hcash : w ≤ a1.cash := by
      rw [← hsell]
      have hceil : (w - a.cash_available) / p
          ≤ ((Int.ceil ((w - a.cash_available) / p) : ℤ) : ℚ) := Int.le_ceil _
      have := mul_le_mul_of_nonneg_left hceil (le_of_lt hp)
      rw [mul_div_cancel₀ _ (ne_of_gt hp)] at this
      simp only [InvestmentAccount.cash_available] at this ⊢
      linarith
    simp [InvestmentAccount.spend_cash, not_lt.mpr hcash]

theorem claim_C3_witness :
    (Market.mk 1970 true snpT inflT).current_price = some 100 ∧ (0 : ℚ) < 100 ∧
    (InvestmentAccount.mk 0 10000).sell_stock (Market.mk 1970 true snpT inflT)
        (Int.ceil (((40000 : ℚ) - (InvestmentAccount.mk 0 10000).cash_available) / 100))
      = some (true, InvestmentAccount.mk 40000 9600) ∧
    ((InvestmentAccount.mk 40000 9600).spend_cash 40000).fst = true := by
  have h : (Market.mk 1970 true snpT inflT).current_price = some 100 := by
    simp [Market.current_price, snpT]
  have hceil : Int.ceil (((40000 : ℚ) - (InvestmentAccount.mk 0 10000).cash_available) / 100)
      = 400 := by
    rw [ceil_via_floor]
    norm_num [InvestmentAccount.cash_available]
  have hsell : (InvestmentAccount.mk 0 10000).sell_stock (Market.mk 1970 true snpT inflT)
      (Int.ceil (((40000 : ℚ) - (InvestmentAccount.mk 0 10000).cash_available) / 100))
      = some (true, InvestmentAccount.mk 40000 9600) := by
    rw [hceil]
    simp only [InvestmentAccount.sell_stock, h]
    norm_num
  exact ⟨h, by norm_num, hsell,
    claim_C3_theorem (InvestmentAccount.mk 0 10000) (Market.mk 1970 true snpT inflT)
      100 40000 (InvestmentAccount.mk 40000 9600) h (by norm_num) hsell⟩

/-- C1 counterexample: with cash 200, zero shares, price 100 and withdrawal
0, the computed count `ceil((0 - 200) / 100) = -2` is non-positive, yet the
`sell_stock` call is not a no-op: it succeeds and moves the account from
`(cash 200, shares 0)` to `(cash 0, shares 2)`. -/
theorem claim_C1_counterexample :
    Int.ceil (((0 : ℚ) - (InvestmentAccount.mk 200 0).cash_available) / 100) ≤ 0 ∧
    (InvestmentAccount.mk 200 0).sell_stock (Market.mk 1970 true snpT inflT)
        (Int.ceil (((0 : ℚ) - (InvestmentAccount.mk 200 0).cash_available) / 100))
      = some (true, InvestmentAccount.mk 0 2) ∧
    InvestmentAccount.mk 0 2 ≠ InvestmentAccount.mk 200 0 := by
  have h : (Market.mk 1970 true snpT inflT).current_price = some 100 := by
    simp [Market.current_price, snpT]
  have hceil : Int.ceil (((0 : ℚ) - (InvestmentAccount.mk 200 0).cash_available) / 100)
      = -2 := by
    rw [ceil_via_floor]
    norm_num [InvestmentAccount.cash_available]
  refine ⟨by rw [hceil]; norm_num, ?_, ?_⟩
  · rw [hceil]
    simp only [InvestmentAccount.sell_stock, h]
    norm_num
  · intro hEq
    have := congrArg InvestmentAccount.cash hEq
    norm_num at this

/-- C1 amended: whenever the computed count `n = ceil((withdrawal -
cash_available) / current_price)` is non-positive and the account holds a
non-negative number of shares, the `sell_stock` call does succeed trivially,
and when the count is exactly `0` it is a no-op; but a strictly negative
count mutates the account, acting as a buy: cash changes by `n × price`
(a decrease) and `shares_owned` by `-n` (an increase). -/
theorem claim_C1_theorem (a : InvestmentAccount) (m : Market) (p : ℚ) (n : ℤ)
    (h : m.current_price = some p) (hn : n ≤ 0) (hs : 0 ≤ a.num_shares) :
    a.sell_stock m n
      = some (true, InvestmentAccount.mk (a.cash + p * n) (a.num_shares - n)) ∧
    (n = 0 → a.sell_stock m n = some (true, a)) := by
  have hguard : ¬(a.num_shares < n) := not_lt.mpr (hn.trans hs)
  constructor
  · simp [InvestmentAccount.sell_stock, h, hguard]
  · intro h0
    subst h0
    simp [InvestmentAccount.sell_stock, h, hguard]

theorem claim_C1_witness :
    (Market.mk 1970 true snpT inflT).current_price = some 100 ∧ (-1 : ℤ) ≤ 0 ∧
    (0 : ℤ) ≤ (InvestmentAccount.mk 300 5).num_shares ∧
    ((InvestmentAccount.mk 300 5).sell_stock (Market.mk 1970 true snpT inflT) (-1)
        = some (true, InvestmentAccount.mk (300 + 100 * ((-1 : ℤ) : ℚ)) (5 - (-1))) ∧
     ((-1 : ℤ) = 0 →
       (InvestmentAccount.mk 300 5).sell_stock (Market.mk 1970 true snpT inflT) (-1)
         = some (true, InvestmentAccount.mk 300 5))) := by
  have h : (Market.mk 1970 true snpT inflT).current_price = some 100 := by
    simp [Market.current_price, snpT]
  exact ⟨h, by norm_num, by norm_num,
    claim_C1_theorem (InvestmentAccount.mk 300 5) (Market.mk 1970 true snpT inflT)
      100 (-1) h (by norm_num) (by norm_num)⟩

theorem sysStep_inv (m : Market) (a : InvestmentAccount) (op : SysOp)
    (a1 : InvestmentAccount) (hm : pricePos m) (hop : op.amountNonneg)
    (ha : accInv a) (hstep : sysStep m a op = some a1) : accInv a1 := by
  obtain ⟨p, hp, hppos⟩ := hm
  obtain ⟨hcash, hshares⟩ := ha
  cases op with
  | buyAll =>
    simp only [sysStep, hp, InvestmentAccount.buy_stock] at hstep
    by_cases haff : a.cash ≥ p * (Int.floor (a.cash_available / p) : ℤ)
    · simp only [ge_iff_le, if_pos haff, Option.some.injEq] at hstep
      subst hstep
      constructor
      · simpa using sub_nonneg.mpr haff
      · have hfl : 0 ≤ Int.floor (a.cash_available / p) :=
          Int.floor_nonneg.mpr (div_nonneg hcash (le_of_lt hppos))
        exact add_nonneg hshares hfl
    · simp [if_neg haff] at hstep
  | sellForWithdrawal w =>
    simp only [SysOp.amountNonneg] at hop
    simp only [sysStep, hp, InvestmentAccount.sell_stock] at hstep
    by_cases hlt : a.num_shares < Int.ceil ((w - a.cash_available) / p)
    · simp only [if_pos hlt, Option.map_some', Option.some.injEq] at hstep
      subst hstep
      exact ⟨hcash, hshares⟩
    · simp only [if_neg hlt, Option.map_some', Option.some.injEq] at hstep
      subst hstep
      constructor
      · have hceil : (w - a.cash_available) / p
            ≤ ((Int.ceil ((w - a.cash_available) / p) : ℤ) : ℚ) := Int.le_ceil _
        have hmul := mul_le_mul_of_nonneg_left hceil (le_of_lt hppos)
        rw [mul_div_cancel₀ _ (ne_of_gt hppos)] at hmul
        simp only [InvestmentAccount.cash_available] at hmul ⊢
        linarith
      · simpa using sub_nonneg.mpr (not_lt.mp hlt)
  | spend amount =>
    simp only [SysOp.amountNonneg] at hop
    simp only [sysStep, Option.some.injEq, InvestmentAccount.spend_cash] at hstep
    by_cases hlt : a.cash < amount
    · simp only [if_pos hlt] at hstep
      subst hstep
      exact ⟨hcash, hshares⟩
    · simp only [if_neg hlt] at hstep
      subst hstep
      exact ⟨by simpa using sub_nonneg.mpr (not_lt.mp hlt), hshares⟩

theorem runSysOps_inv :
    ∀ (ops : List (Market × SysOp)) (a : InvestmentAccount),
      (∀ x ∈ ops, pricePos x.1 ∧ SysOp.amountNonneg x.2) → accInv a →
      ∀ a1, runSysOps a ops = some a1 → accInv a1 := by
  intro ops
  induction ops with
  | nil =>
    intro a _ ha a1 hrun
    simp only [runSysOps, Option.some.injEq] at hrun
    subst hrun
    exact ha
  | cons hd tl ih =>
    intro a hops ha a1 hrun
    simp only [runSysOps] at hrun
    cases hstep : sysStep hd.1 a hd.2 with
    | none => rw [hstep] at hrun; simp at hrun
    | some amid =>
      rw [hstep] at hrun
      have hhd := hops hd (List.mem_cons_self hd tl)
      have hmid := sysStep_inv hd.1 a hd.2 amid hhd.1 hhd.2 ha hstep
      exact ih amid (fun x hx => hops x (List.mem_cons_of_mem hd hx)) hmid a1 hrun

/-- C2: starting from non-negative cash and zero shares, any sequence of
`buy_stock` / `sell_stock` / `spend_cash` operations with the argument
shapes the system uses (at positive market prices and with non-negative
amounts) keeps `cash ≥ 0` and `shares_owned ≥ 0` after every successful
operation; and a sell or spend that would violate share/cash sufficiency is
rejected with `False` leaving the account unchanged, not clamped. -/
theorem claim_C2_theorem :
    (∀ (c : ℚ), 0 ≤ c →
      ∀ (ops : List (Market × SysOp)),
        (∀ x ∈ ops, pricePos x.1 ∧ SysOp.amountNonneg x.2) →
        ∀ a1, runSysOps (InvestmentAccount.mk0 c) ops = some a1 → accInv a1) ∧
    (∀ (a : InvestmentAccount) (m : Market) (p : ℚ) (n : ℤ),
      m.current_price = some p → a.num_shares < n →
      a.sell_stock m n = some (false, a)) ∧
    (∀ (a : InvestmentAccount) (amt : ℚ), a.cash < amt →
      a.spend_cash amt = (false, a)) := by
  refine ⟨?_, ?_, ?_⟩
  · intro c hc ops hops a1 hrun
    exact runSysOps_inv ops (InvestmentAccount.mk0 c) hops
      ⟨by simpa [InvestmentAccount.mk0] using hc, le_refl 0⟩ a1 hrun
  · intro a m p n hp hlt
    simp [InvestmentAccount.sell_stock, hp, hlt]
  · intro a amt hlt
    simp [InvestmentAccount.spend_cash, hlt]

theorem claim_C2_witness :
    (0 : ℚ) ≤ 250 ∧
    (∀ x ∈ [(Market.mk 1970 true snpT inflT, SysOp.buyAll),
            (Market.mk 1970 true snpT inflT, SysOp.sellForWithdrawal 30),
            (Market.mk 1970 true snpT inflT, SysOp.spend 30)],
        pricePos x.1 ∧ SysOp.amountNonneg x.2) ∧
    runSysOps (InvestmentAccount.mk0 250)
        [(Market.mk 1970 true snpT inflT, SysOp.buyAll),
         (Market.mk 1970 true snpT inflT, SysOp.sellForWithdrawal 30),
         (Market.mk 1970 true snpT inflT, SysOp.spend 30)]
      = some (InvestmentAccount.mk 20 2) ∧
    accInv (InvestmentAccount.mk 20 2) := by
  have hprice : (Market.mk 1970 true snpT inflT).current_price = some 100 := by
    simp [Market.current_price, snpT]
  have hpos : pricePos (Market.mk 1970 true snpT inflT) := ⟨100, hprice, by norm_num⟩
  have hops : ∀ x ∈ [(Market.mk 1970 true snpT inflT, SysOp.buyAll),
      (Market.mk 1970 true snpT inflT, SysOp.sellForWithdrawal 30),
      (Market.mk 1970 true snpT inflT, SysOp.spend 30)],
      pricePos x.1 ∧ SysOp.amountNonneg x.2 := by
    intro x hx
    simp only [List.mem_cons, List.not_mem_nil, or_false] at hx
    rcases hx with h | h | h <;> subst h <;>
      exact ⟨hpos, by simp [SysOp.amountNonneg]⟩
  have h1 : sysStep (Market.mk 1970 true snpT inflT) (InvestmentAccount.mk0 250)
      SysOp.buyAll = some (InvestmentAccount.mk 50 2) := by
    simp only [sysStep, hprice]
    have hfl : Int.floor ((InvestmentAccount.mk0 250).cash_available / (100 : ℚ)) = 2 := by
      norm_num [InvestmentAccount.mk0, InvestmentAccount.cash_available]
    rw [hfl]
    simp only [InvestmentAccount.buy_stock, hprice, InvestmentAccount.mk0]
    norm_num
  have h2 : sysStep (Market.mk 1970 true snpT inflT) (InvestmentAccount.mk 50 2)
      (SysOp.sellForWithdrawal 30) = some (InvestmentAccount.mk 50 2) := by
    simp only [sysStep, hprice]
    have hcl : Int.ceil (((30 : ℚ) - (InvestmentAccount.mk 50 2).cash_available) / 100)
        = 0 := by
      rw [ceil_via_floor]
      norm_num [InvestmentAccount.cash_available]
    rw [hcl]
    simp only [InvestmentAccount.sell_stock, hprice]
    norm_num
  have h3 : sysStep (Market.mk 1970 true snpT inflT) (InvestmentAccount.mk 50 2)
      (SysOp.spend 30) = some (InvestmentAccount.mk 20 2) := by
    simp only [sysStep, InvestmentAccount.spend_cash]
    norm_num
  have hrun : runSysOps (InvestmentAccount.mk0 250)
      [(Market.mk 1970 true snpT inflT, SysOp.buyAll),
       (Market.mk 1970 true snpT inflT, SysOp.sellForWithdrawal 30),
       (Market.mk 1970 true snpT inflT, SysOp.spend 30)]
      = some (InvestmentAccount.mk 20 2) := by
    simp only [runSysOps, h1, h2, h3]
  exact ⟨by norm_num, hops, hrun,
    claim_C2_theorem.1 250 (by norm_num) _ hops (InvestmentAccount.mk 20 2) hrun⟩

theorem compoundedFactor_succ (rate : ℤ → ℚ) (y : ℤ) (n : ℕ) :
    compoundedFactor rate y (n + 1) = (1 + rate y) * compoundedFactor rate (y + 1) n := by
  unfold compoundedFactor
  rw [Finset.prod_range_succ']
  have h1 : (∏ x ∈ Finset.range n, (1 + rate (y + ((x : ℤ) + 1))))
      = ∏ k ∈ Finset.range n, (1 + rate (y + 1 + (k : ℤ))) :=
    Finset.prod_congr rfl fun k _ => by
      have harg : y + ((k : ℤ) + 1) = y + 1 + (k : ℤ) := by ring
      rw [harg]
  push_cast
  rw [h1]
  simp only [add_zero]
  ring

theorem inflation_loop_eq (yti : ℤ → Option ℚ) (rate : ℤ → ℚ) :
    ∀ (n : ℕ) (y : ℤ) (p : ℚ),
      (∀ k : ℕ, k < n → yti (y + k) = some (rate (y + k))) →
      inflation_loop yti y n p = some (p * compoundedFactor rate y n) := by
  intro n
  induction n with
  | zero =>
    intro y p _
    simp [inflation_loop, compoundedFactor]
  | succ n ih =>
    intro y p h
    have h0 : yti y = some (rate y) := by
      have := h 0 (Nat.succ_pos n)
      simpa using this
    have hrest : ∀ k : ℕ, k < n → yti (y + 1 + k) = some (rate (y + 1 + k)) := by
      intro k hk
      have := h (k + 1) (by omega)
      have harg : y + ((k : ℤ) + 1) = y + 1 + (k : ℤ) := by ring
      push_cast at this
      rw [harg] at this
      exact this
    simp only [inflation_loop, h0]
    rw [ih (y + 1) (p * (1 + rate y)) hrest, compoundedFactor_succ]
    congr 1
    ring

/-- C8: whenever every year in `[startYear, startYear + n)` has an
inflation entry, `nominal_to_real(amount, startYear, n)` equals the amount
divided by the left-to-right product of `(1 + rate(y))` over those `n`
years; and for `n = 0` it returns the amount unchanged (empty product
is 1). -/
theorem claim_C8_theorem (yti : ℤ → Option ℚ) (rate : ℤ → ℚ) (amt : ℚ) (y : ℤ)
    (n : ℕ) (h : ∀ k : ℕ, k < n → yti (y + k) = some (rate (y + k))) :
    nominal_to_real yti amt y n = some (amt / compoundedFactor rate y n) ∧
    nominal_to_real yti amt y 0 = some amt := by
  constructor
  · unfold nominal_to_real get_inflation_percentage
    rw [inflation_loop_eq yti rate n y 1 h]
    simp only [Option.map_some', Option.some.injEq, one_mul]
    rw [one_div, div_eq_mul_inv]
  · simp [nominal_to_real, get_inflation_percentage, inflation_loop]

theorem claim_C8_witness :
    (∀ k : ℕ, k < 1 → inflT ((1970 : ℤ) + k) = some ((fun _ => (1 : ℚ) / 20) ((1970 : ℤ) + k))) ∧
    (nominal_to_real inflT 42 1970 1
        = some (42 / compoundedFactor (fun _ => (1 : ℚ) / 20) 1970 1) ∧
     nominal_to_real inflT 42 1970 0 = some 42) := by
  have h : ∀ k : ℕ, k < 1 →
      inflT ((1970 : ℤ) + k) = some ((fun _ => (1 : ℚ) / 20) ((1970 : ℤ) + k)) := by
    intro k hk
    have hk0 : k = 0 := by omega
    subst hk0
    simp [inflT]
  exact ⟨h, claim_C8_theorem inflT (fun _ => (1 : ℚ) / 20) 42 1970 1 h⟩

/-- C6: in any loop iteration whose sale fails (not enough shares for the
computed count), the strategy returns — rather than raises — the ordinary
pair `(False, colored("ran short in <year>", "red"))`, with the account and
the market clock left exactly as they were (so no later year of the run is
simulated). -/
theorem claim_C6_theorem (a : InvestmentAccount) (m : Market) (p pct frw : ℚ)
    (fm : Bool) (year : ℤ) (r : ℕ) (h : m.current_price = some p)
    (hfail : a.num_shares <
      Int.ceil (((if fm then frw else (a.cash + a.num_shares * p) * pct)
          - a.cash_available) / p)) :
    BuyAndHoldStrategy.goLoop pct fm a m year (r + 1) frw
      = some ((false, colored ("ran short in " ++ toString year) "red"), a, m) := by
  simp only [BuyAndHoldStrategy.goLoop, InvestmentAccount.net_worth, h,
    Option.map_some', InvestmentAccount.sell_stock, if_pos hfail]
  simp

theorem claim_C6_witness :
    (Market.mk 1970 true snpT inflT).current_price = some 100 ∧
    (InvestmentAccount.mk 0 100).num_shares <
      Int.ceil (((40000 : ℚ) - (InvestmentAccount.mk 0 100).cash_available) / 100) ∧
    BuyAndHoldStrategy.goLoop (1 / 25) true (InvestmentAccount.mk 0 100)
        (Market.mk 1970 true snpT inflT) 1970 (2 + 1) 40000
      = some ((false, colored ("ran short in " ++ toString (1970 : ℤ)) "red"),
          InvestmentAccount.mk 0 100, Market.mk 1970 true snpT inflT) := by
  have h : (Market.mk 1970 true snpT inflT).current_price = some 100 := by
    simp [Market.current_price, snpT]
  have hfail : (InvestmentAccount.mk 0 100).num_shares <
      Int.ceil (((40000 : ℚ) - (InvestmentAccount.mk 0 100).cash_available) / 100) := by
    have hceil : Int.ceil (((40000 : ℚ) - (InvestmentAccount.mk 0 100).cash_available) / 100)
        = 400 := by
      rw [ceil_via_floor]
      norm_num [InvestmentAccount.cash_available]
    rw [hceil]
    norm_num
  exact ⟨h, hfail,
    claim_C6_theorem (InvestmentAccount.mk 0 100) (Market.mk 1970 true snpT inflT)
      100 (1 / 25) 40000 true 1970 2 h hfail⟩

/-- C5: (initialization) after the strategy's opening buy, the per-year
loop starts with the fixed withdrawal target `cash_available ×
spendingPercentage` of the fresh account; (per-year step, fixed-real mode)
an iteration at year Y that completes — the sale of
`ceil((withdrawal - cash) / open)` shares succeeds at the positive
start-of-year price and year Y has an inflation entry — withdraws this
year's target from the account, advances the clock through year-end to year
Y + 1 at phase start, and only then hands the next iteration the target
multiplied by `(1 + inflation(Y))`: year Y + 1's fixed withdrawal is year
Y's times `(1 + inflation(Y))`. -/
theorem claim_C5_theorem :
    (∀ (pct : ℚ) (fm : Bool) (a : InvestmentAccount) (m : Market) (p : ℚ)
        (y : ℤ) (n : ℕ) (a1 : InvestmentAccount),
      m.current_price = some p →
      a.buy_stock m (Int.floor (a.cash_available / p)) = some a1 →
      BuyAndHoldStrategy.go pct fm a m y n
        = BuyAndHoldStrategy.goLoop pct fm a1 m y n (a.cash_available * pct)) ∧
    (∀ (snp : ℤ → Option SnpYear) (yti : ℤ → Option ℚ) (Y : ℤ) (sy : SnpYear)
        (infl : ℚ) (a : InvestmentAccount) (pct frw : ℚ) (r : ℕ),
      snp Y = some sy → 0 < sy.openPrice → yti Y = some infl →
      Int.ceil ((frw - a.cash_available) / sy.openPrice) ≤ a.num_shares →
      BuyAndHoldStrategy.goLoop pct true a (Market.mk Y true snp yti) Y (r + 1) frw
        = BuyAndHoldStrategy.goLoop pct true
            (InvestmentAccount.mk
              (a.cash
                + sy.openPrice * ((Int.ceil ((frw - a.cash_available) / sy.openPrice) : ℤ) : ℚ)
                - frw)
              (a.num_shares - Int.ceil ((frw - a.cash_available) / sy.openPrice)))
            (Market.mk (Y + 1) true snp yti) (Y + 1) r (frw * (1 + infl))) := by
  constructor
  · intro pct fm a m p y n a1 h hbuy
    simp only [BuyAndHoldStrategy.go, h, hbuy]
  · intro snp yti Y sy infl a pct frw r hsnp hpos hinfl hsell
    have hprice : (Market.mk Y true snp yti).current_price = some sy.openPrice := by
      simp [Market.current_price, hsnp]
    have hcash : frw ≤ a.cash
        + sy.openPrice * ((Int.ceil ((frw - a.cash_available) / sy.openPrice) : ℤ) : ℚ) := by
      have hceil : (frw - a.cash_available) / sy.openPrice
          ≤ ((Int.ceil ((frw - a.cash_available) / sy.openPrice) : ℤ) : ℚ) := Int.le_ceil _
      have hmul := mul_le_mul_of_nonneg_left hceil (le_of_lt hpos)
      rw [mul_div_cancel₀ _ (ne_of_gt hpos)] at hmul
      simp only [InvestmentAccount.cash_available] at hmul ⊢
      linarith
    simp only [BuyAndHoldStrategy.goLoop, InvestmentAccount.net_worth, hprice,
      Option.map_some', if_true, InvestmentAccount.sell_stock,
      if_neg (not_lt.mpr hsell), InvestmentAccount.spend_cash,
      if_neg (not_lt.mpr hcash), Market.move_to_end_of_current_year,
      Market.current_inflation, Market.move_to_next_year, hinfl]
    simp

theorem claim_C5_witness :
    ((Market.mk 1970 true snpT inflT).current_price = some 100 ∧
     (InvestmentAccount.mk0 1000000).buy_stock (Market.mk 1970 true snpT inflT)
         (Int.floor ((InvestmentAccount.mk0 1000000).cash_available / 100))
       = some (InvestmentAccount.mk 0 10000) ∧
     BuyAndHoldStrategy.go (1 / 25) true (InvestmentAccount.mk0 1000000)
         (Market.mk 1970 true snpT inflT) 1970 1
       = BuyAndHoldStrategy.goLoop (1 / 25) true (InvestmentAccount.mk 0 10000)
           (Market.mk 1970 true snpT inflT) 1970 1
           ((InvestmentAccount.mk0 1000000).cash_available * (1 / 25))) ∧
    (snpT 1970 = some (SnpYear.mk 1970 100 110) ∧ (0 : ℚ) < 100 ∧
     inflT 1970 = some (1 / 20) ∧
     Int.ceil (((40000 : ℚ) - (InvestmentAccount.mk 0 10000).cash_available) / 100)
       ≤ (InvestmentAccount.mk 0 10000).num_shares ∧
     BuyAndHoldStrategy.goLoop (1 / 25) true (InvestmentAccount.mk 0 10000)
         (Market.mk 1970 true snpT inflT) 1970 (0 + 1) 40000
       = BuyAndHoldStrategy.goLoop (1 / 25) true
           (InvestmentAccount.mk
             ((InvestmentAccount.mk 0 10000).cash
               + 100 * ((Int.ceil (((40000 : ℚ)
                   - (InvestmentAccount.mk 0 10000).cash_available) / 100) : ℤ) : ℚ)
               - 40000)
             ((InvestmentAccount.mk 0 10000).num_shares
               - Int.ceil (((40000 : ℚ)
                   - (InvestmentAccount.mk 0 10000).cash_available) / 100)))
           (Market.mk (1970 + 1) true snpT inflT) (1970 + 1) 0 (40000 * (1 + 1 / 20))) := by
  have hprice : (Market.mk 1970 true snpT inflT).current_price = some 100 := by
    simp [Market.current_price, snpT]
  have hbuy : (InvestmentAccount.mk0 1000000).buy_stock (Market.mk 1970 true snpT inflT)
      (Int.floor ((InvestmentAccount.mk0 1000000).cash_available / 100))
      = some (InvestmentAccount.mk 0 10000) := by
    have hfl : Int.floor ((InvestmentAccount.mk0 1000000).cash_available / (100 : ℚ))
        = 10000 := by
      norm_num [InvestmentAccount.mk0, InvestmentAccount.cash_available]
    rw [hfl]
    simp only [InvestmentAccount.buy_stock, hprice, InvestmentAccount.mk0]
    norm_num
  have hsnp : snpT 1970 = some (SnpYear.mk 1970 100 110) := by simp [snpT]
  have hinfl : inflT 1970 = some (1 / 20) := by simp [inflT]
  have hsell : Int.ceil (((40000 : ℚ) - (InvestmentAccount.mk 0 10000).cash_available) / 100)
      ≤ (InvestmentAccount.mk 0 10000).num_shares := by
    have hsl : Int.ceil (((40000 : ℚ) - (InvestmentAccount.mk 0 10000).cash_available) / 100)
        = 400 := by
      rw [ceil_via_floor]
      norm_num [InvestmentAccount.cash_available]
    rw [hsl]
    norm_num
  exact ⟨⟨hprice, hbuy,
      claim_C5_theorem.1 (1 / 25) true (InvestmentAccount.mk0 1000000)
        (Market.mk 1970 true snpT inflT) 100 1970 1 (InvestmentAccount.mk 0 10000)
        hprice hbuy⟩,
    hsnp, by norm_num, hinfl, hsell,
    claim_C5_theorem.2 snpT inflT 1970 (SnpYear.mk 1970 100 110) (1 / 20)
      (InvestmentAccount.mk 0 10000) (1 / 25) 40000 0 hsnp (by norm_num) hinfl hsell⟩
